import Mathlib

/-!
# dnsdigger: a shallow embedding of `dns.go`

The Go package `dnsdigger` builds a `Zone` for a domain by calling the resolver
of the Go standard library (`net.DefaultResolver`) and post-processing the
answers.  This file embeds the package in Lean:

* Go strings are modelled by Lean strings (sequences of code points).  The only
  separator the code uses is the ASCII dot, and on well-formed UTF-8 the
  bytewise order of Go coincides with the code-point order used here.
* Go errors are modelled by `GoError`; a `nil` error is `none`.
* The resolver is external to the package.  It is modelled by a record of
  state-passing functions over an arbitrary state type, so that a lookup may
  answer differently each time it is called.
* `sort.Slice` is external to the package as well; it is a parameter
  (`SortSlice`) constrained by its documented contract (`SortSlice.Correct`).
* Go maps are modelled by association lists with `mapSet` and `List.lookup`.
-/

namespace DnsDigger

/-! ## Strings (`strings.HasSuffix`, `strings.TrimSuffix`, `strings.Split`, `<`) -/

/-- Go's `strings.HasSuffix(s, suffix)`. -/
def hasSuffix (s suffix : String) : Bool :=
  suffix.data.isSuffixOf s.data

/-- Go's `strings.TrimSuffix(s, suffix)`: `s` without the given trailing suffix,
or `s` itself when it does not end with the suffix.  At most one copy of the
suffix is removed. -/
def trimSuffix (s suffix : String) : String :=
  if hasSuffix s suffix then
    ⟨s.data.take (s.data.length - suffix.data.length)⟩
  else s

/-- Splitting a character sequence at every occurrence of `sep`; the result
always has one more piece than there are separators. -/
def splitChars (sep : Char) : List Char → List (List Char)
  | [] => [[]]
  | c :: cs =>
    if c = sep then [] :: splitChars sep cs
    else
      match splitChars sep cs with
      | [] => [[c]]
      | p :: ps => (c :: p) :: ps

/-- Go's `strings.Split(s, sep)` for a one-character separator. -/
def split (s : String) (sep : Char) : List String :=
  (splitChars sep s.data).map String.mk

/-- Go slice indexing `xs[i]` on a slice of strings.  Every use below is guarded
by a length check, so the default is never returned (Go would panic there). -/
def index (xs : List String) (i : Nat) : String :=
  xs.getD i ""

/-- Lexicographic comparison of character sequences. -/
def ltChars : List Char → List Char → Bool
  | [], [] => false
  | [], _ :: _ => true
  | _ :: _, [] => false
  | a :: as, b :: bs =>
    if a.toNat < b.toNat then true
    else if b.toNat < a.toNat then false
    else ltChars as bs

/-- Go's `a < b` on strings. -/
def strLess (a b : String) : Bool :=
  ltChars a.data b.data

/-! ## Static data -/

/-- The package-level `owners` map. -/
def owners : List (String × String) :=
  [("amazonaws.com", "Amazon.com, Inc."),
   ("1e100.net", "Google LLC"),
   ("domaincontrol.com", "GoDaddy"),
   ("cloudflare.com", "CloudFlare")]

/-- The constant `unknownOwner`. -/
def unknownOwner : String := "Unknown"

/-- The package-level `commonTXTRecords`. -/
def commonTXTRecords : List String :=
  ["", "_dmarc", "_amazonses", "google._domainkey"]

/-- The package-level `commonCNAMERecords`. -/
def commonCNAMERecords : List String :=
  ["www", "mail", "beta", "dev", "alpha", "private", "developers", "www2", "www3"]

/-! ## Owner classifier and name normalisation -/

/-- The function `getOwner` of `dns.go`. -/
def getOwner (name : String) : String :=
  let name := trimSuffix name "."
  let nameParts := split name '.'
  let partCount := nameParts.length
  if nameParts.length < 2 then unknownOwner
  else
    let lastIndex := partCount - 1
    if index nameParts lastIndex = "com" ∨ index nameParts lastIndex = "net" then
      let zoneName := index nameParts (lastIndex - 1) ++ "." ++ index nameParts lastIndex
      match owners.lookup zoneName with
      | none => unknownOwner
      | some owner => owner
    else unknownOwner

/-- The function `trimHostname` of `dns.go`. -/
def trimHostname (hostname : String) : String :=
  trimSuffix hostname "."

/-- The reference definition of the owner classifier, following the words of the
specification: strip one trailing dot, split on dots, and when there are at
least two labels, the last one is `com` or `net`, and the two-label zone made
of the last two labels is a key of the owners table, answer the table value;
answer `Unknown` in every other case. -/
def getOwnerSpec (name : String) : String :=
  match (split (trimSuffix name ".") '.').reverse with
  | last :: prev :: _ =>
    if last ∈ ["com", "net"] then
      (owners.lookup (prev ++ "." ++ last)).getD "Unknown"
    else "Unknown"
  | _ => "Unknown"

/-! ## Errors -/

/-- Go error values, as far as the package can tell them apart: a
`*net.DNSError` with its `IsNotFound` flag, an error of any other kind, and an
error produced by `fmt.Errorf` with the `%w` verb around another error. -/
inductive GoError where
  | dns (msg : String) (isNotFound : Bool)
  | other (msg : String)
  | wrap (msg : String) (inner : GoError)
  deriving DecidableEq, Repr

/-- The method `Error()`. -/
def GoError.message : GoError → String
  | .dns msg _ => msg
  | .other msg => msg
  | .wrap msg _ => msg

/-- Go's `errors.As(err, &dnsErr)` for a target of type `*net.DNSError`: the
first DNS error on the unwrap chain, reported by its `IsNotFound` flag. -/
def errorsAsDNS : GoError → Option Bool
  | .dns _ isNotFound => some isNotFound
  | .other _ => none
  | .wrap _ inner => errorsAsDNS inner

/-- The unwrap chain of `err` reaches `target` (Go's `errors.Is`). -/
def wraps : GoError → GoError → Bool
  | .wrap msg inner, target =>
    decide (GoError.wrap msg inner = target) || wraps inner target
  | err, target => decide (err = target)

/-- The call `fmt.Errorf("error occurred looking up <kind> for %v. %w", hostname, err)`. -/
def errorf (kind hostname : String) (err : GoError) : GoError :=
  .wrap ("error occurred looking up " ++ kind ++ " for " ++ hostname ++ ". " ++ err.message) err

/-- The guard `errors.As(err, &dnsErr) && !dnsErr.IsNotFound` shared by the MX,
NS and CNAME fetchers. -/
def isFatalDNS (err : GoError) : Bool :=
  match errorsAsDNS err with
  | some isNotFound => !isNotFound
  | none => false

/-! ## Data model -/

/-- The struct `IP`. -/
structure IP where
  Addr : String
  Ptrs : List String
  Owner : String
  deriving DecidableEq, Repr

/-- The struct `Host`. -/
structure Host where
  Name : String
  IPs : List IP
  deriving DecidableEq, Repr

/-- The struct `MXRecord`; `Priority` is a `uint16`, only ever compared. -/
structure MXRecord where
  Priority : Nat
  Host : Host
  deriving DecidableEq, Repr

/-- The struct `Zone`. -/
structure Zone where
  Name : String
  A : List IP
  MX : List MXRecord
  NS : List Host
  TXT : List (String × List String)
  CNAME : List (String × String)
  deriving DecidableEq, Repr

/-- The assignment `m[k] = v` on a Go map. -/
def mapSet {β : Type} (m : List (String × β)) (k : String) (v : β) : List (String × β) :=
  (k, v) :: m.filter (fun p => p.1 != k)

/-! ## External collaborators -/

/-- The struct `net.MX`. -/
structure NetMX where
  Host : String
  Pref : Nat
  deriving DecidableEq, Repr

/-- The struct `net.NS`. -/
structure NetNS where
  Host : String
  deriving DecidableEq, Repr

/-- The resolver `net.DefaultResolver` together with the context handed to it.
Each lookup returns its value, its error (`none` for `nil`) and the next state
of the resolver. -/
structure Resolver (σ : Type) where
  LookupHost : String → σ → (List String × Option GoError) × σ
  LookupMX : String → σ → (List NetMX × Option GoError) × σ
  LookupNS : String → σ → (List NetNS × Option GoError) × σ
  LookupTXT : String → σ → (List String × Option GoError) × σ
  LookupCNAME : String → σ → (String × Option GoError) × σ
  LookupAddr : String → σ → (List String × Option GoError) × σ

/-- Go's `sort.Slice`, with the comparison given on elements. -/
structure SortSlice where
  sort : {α : Type} → (α → α → Bool) → List α → List α

/-- The documented contract of `sort.Slice`: for a comparison that is a strict
weak ordering the result is a rearrangement of the input in which no element
is smaller than an earlier one. -/
def SortSlice.Correct (S : SortSlice) : Prop :=
  ∀ {α : Type} (less : α → α → Bool) (l : List α),
    (∀ a, less a a = false) →
    (∀ a b c, less a b = true → less b c = true → less a c = true) →
    (∀ a b c, less a b = false → less b c = false → less a c = false) →
    (S.sort less l).Perm l ∧ (S.sort less l).Pairwise (fun a b => less b a = false)

/-- Insertion of one element into a sorted list. -/
def orderedInsert {α : Type} (less : α → α → Bool) (a : α) : List α → List α
  | [] => [a]
  | b :: l => if less b a then b :: orderedInsert less a l else a :: b :: l

/-- Insertion sort, one implementation of the contract of `sort.Slice`. -/
def insertionSort {α : Type} (less : α → α → Bool) : List α → List α
  | [] => []
  | a :: l => orderedInsert less a (insertionSort less l)

/-- The sorter used to run the model on concrete inputs. -/
def insertionSortSlice : SortSlice := ⟨fun less l => insertionSort less l⟩

/-! ## Record fetchers -/

/-- The loop of `getIPs`, with the slice `ips` built so far. -/
def getIPsLoop {σ : Type} (r : Resolver σ) : List String → σ → List IP → List IP × σ
  | [], s, ips => (ips, s)
  | addr :: rest, s, ips =>
    let res := r.LookupAddr addr s
    match res.1.2 with
    | some _ => getIPsLoop r rest res.2 (ips ++ [{ Addr := addr, Ptrs := [], Owner := "" }])
    | none =>
      let names := res.1.1
      let owner := if names.length > 0 then getOwner (index names 0) else unknownOwner
      getIPsLoop r rest res.2
        (ips ++ [{ Addr := addr, Ptrs := names.map trimHostname, Owner := owner }])

/-- The function `getIPs` of `dns.go`. -/
def getIPs {σ : Type} (r : Resolver σ) (addrs : List String) (s : σ) : List IP × σ :=
  getIPsLoop r addrs s []

/-- The function `getARecord` of `dns.go`. -/
def getARecord {σ : Type} (r : Resolver σ) (hostname : String) (s : σ) :
    (List IP × Option GoError) × σ :=
  let res := r.LookupHost hostname s
  match res.1.2 with
  | some err => (([], some (errorf "A Record" hostname err)), res.2)
  | none =>
    let out := getIPs r res.1.1 res.2
    ((out.1, none), out.2)

/-- The comparison handed to `sort.Slice` in `getMXRecords`. -/
def mxLess (a b : MXRecord) : Bool :=
  if a.Priority = b.Priority then strLess a.Host.Name b.Host.Name
  else decide (a.Priority < b.Priority)

/-- The comparison handed to `sort.Slice` in `getNSRecords`. -/
def nsLess (a b : Host) : Bool :=
  strLess a.Name b.Name

/-- The loop of `getMXRecords`; a failing address lookup returns the records
built so far together with the error. -/
def getMXLoop {σ : Type} (r : Resolver σ) :
    List NetMX → σ → List MXRecord → (List MXRecord × Option GoError) × σ
  | [], s, mx => ((mx, none), s)
  | e :: rest, s, mx =>
    let res := getARecord r e.Host s
    match res.1.2 with
    | some err => ((mx, some err), res.2)
    | none =>
      getMXLoop r rest res.2
        (mx ++ [{ Host := { Name := trimHostname e.Host, IPs := res.1.1 }, Priority := e.Pref }])

/-- The function `getMXRecords` of `dns.go`. -/
def getMXRecords {σ : Type} (r : Resolver σ) (S : SortSlice) (hostname : String) (s : σ) :
    (List MXRecord × Option GoError) × σ :=
  let res := r.LookupMX hostname s
  match res.1.2 with
  | some err =>
    if isFatalDNS err then (([], some (errorf "MX Records" hostname err)), res.2)
    else (([], none), res.2)
  | none =>
    let out := getMXLoop r res.1.1 res.2 []
    match out.1.2 with
    | some err => ((out.1.1, some err), out.2)
    | none => ((S.sort mxLess out.1.1, none), out.2)

/-- The loop of `getNSRecords`. -/
def getNSLoop {σ : Type} (r : Resolver σ) :
    List NetNS → σ → List Host → (List Host × Option GoError) × σ
  | [], s, ns => ((ns, none), s)
  | e :: rest, s, ns =>
    let res := getARecord r e.Host s
    match res.1.2 with
    | some err => ((ns, some err), res.2)
    | none => getNSLoop r rest res.2 (ns ++ [{ Name := trimHostname e.Host, IPs := res.1.1 }])

/-- The function `getNSRecords` of `dns.go`. -/
def getNSRecords {σ : Type} (r : Resolver σ) (S : SortSlice) (hostname : String) (s : σ) :
    (List Host × Option GoError) × σ :=
  let res := r.LookupNS hostname s
  match res.1.2 with
  | some err =>
    if isFatalDNS err then (([], some (errorf "NS Records" hostname err)), res.2)
    else (([], none), res.2)
  | none =>
    let out := getNSLoop r res.1.1 res.2 []
    match out.1.2 with
    | some err => ((out.1.1, some err), out.2)
    | none => ((S.sort nsLess out.1.1, none), out.2)

/-- The name queried for a candidate of `commonTXTRecords`. -/
def txtName (n hostname : String) : String :=
  if n.length > 0 then n ++ "." ++ hostname else hostname

/-- The loop of `getCommonTXTRecords`. -/
def getTXTLoop {σ : Type} (r : Resolver σ) (hostname : String) :
    List String → σ → List (String × List String) → List (String × List String) × σ
  | [], s, txts => (txts, s)
  | n :: rest, s, txts =>
    let n := txtName n hostname
    let res := r.LookupTXT n s
    match res.1.2 with
    | some _ => getTXTLoop r hostname rest res.2 txts
    | none => getTXTLoop r hostname rest res.2 (mapSet txts n res.1.1)

/-- The function `getCommonTXTRecords` of `dns.go`. -/
def getCommonTXTRecords {σ : Type} (r : Resolver σ) (hostname : String) (s : σ) :
    (List (String × List String) × Option GoError) × σ :=
  let out := getTXTLoop r hostname commonTXTRecords s []
  ((out.1, none), out.2)

/-- The loop of `getCNAMERecords`. -/
def getCNAMELoop {σ : Type} (r : Resolver σ) (hostname : String) :
    List String → σ → List (String × String) → (List (String × String) × Option GoError) × σ
  | [], s, cname => ((cname, none), s)
  | n :: rest, s, cname =>
    let res := r.LookupCNAME (n ++ "." ++ hostname) s
    match res.1.2 with
    | some err =>
      if isFatalDNS err then ((cname, some (errorf "CNAME Records" hostname err)), res.2)
      else getCNAMELoop r hostname rest res.2 cname
    | none => getCNAMELoop r hostname rest res.2 (mapSet cname n (trimHostname res.1.1))

/-- The function `getCNAMERecords` of `dns.go`. -/
def getCNAMERecords {σ : Type} (r : Resolver σ) (hostname : String) (s : σ) :
    (List (String × String) × Option GoError) × σ :=
  getCNAMELoop r hostname commonCNAMERecords s []

/-- The function `Query` of `dns.go`. -/
def Query {σ : Type} (r : Resolver σ) (S : SortSlice) (domain : String) (s : σ) :
    (Zone × Option GoError) × σ :=
  let z : Zone := { Name := domain, A := [], MX := [], NS := [], TXT := [], CNAME := [] }
  let a := getARecord r domain s
  let z := { z with A := a.1.1 }
  match a.1.2 with
  | some err => ((z, some err), a.2)
  | none =>
  let m := getMXRecords r S domain a.2
  let z := { z with MX := m.1.1 }
  match m.1.2 with
  | some err => ((z, some err), m.2)
  | none =>
  let n := getNSRecords r S domain m.2
  let z := { z with NS := n.1.1 }
  match n.1.2 with
  | some err => ((z, some err), n.2)
  | none =>
  let t := getCommonTXTRecords r domain n.2
  let z := { z with TXT := t.1.1 }
  match t.1.2 with
  | some err => ((z, some err), t.2)
  | none =>
  let c := getCNAMERecords r domain t.2
  let z := { z with CNAME := c.1.1 }
  match c.1.2 with
  | some err => ((z, some err), c.2)
  | none => ((z, none), c.2)

/-! ## Vocabulary of the statements -/

/-- The record `getIPs` appends for an address, from the answer of its reverse
lookup. -/
def ipOfAnswer (addr : String) (ans : List String × Option GoError) : IP :=
  match ans.2 with
  | some _ => { Addr := addr, Ptrs := [], Owner := "" }
  | none =>
    { Addr := addr, Ptrs := ans.1.map trimHostname,
      Owner := if ans.1.length > 0 then getOwner (index ans.1 0) else unknownOwner }

/-- The sort key of an MX record: priority, then host name. -/
def mxKey (m : MXRecord) : Nat × String := (m.Priority, m.Host.Name)

/-- The sort key the resolver entry will have once stored: preference, then
trimmed target. -/
def entryKey (e : NetMX) : Nat × String := (e.Pref, trimHostname e.Host)

/-- Ascending order of sort keys: by priority, and by name within a priority. -/
def keyLe (a b : Nat × String) : Prop :=
  a.1 < b.1 ∨ (a.1 = b.1 ∧ strLess b.2 a.2 = false)

/-- Ascending order of names. -/
def nameLe (a b : String) : Prop := strLess b a = false

/-- The names `getCommonTXTRecords` asks for, each with the answer of the TXT
lookup, asked in the state its predecessor left behind. -/
def txtAnswers {σ : Type} (r : Resolver σ) (hostname : String) :
    List String → σ → List (String × (List String × Option GoError))
  | [], _ => []
  | n :: rest, s =>
    let res := r.LookupTXT (txtName n hostname) s
    (txtName n hostname, res.1) :: txtAnswers r hostname rest res.2

/-- The state of the resolver after the A step of `Query`. -/
def afterA {σ : Type} (r : Resolver σ) (domain : String) (s : σ) : σ :=
  (getARecord r domain s).2

/-- The state of the resolver after the A and MX steps of `Query`. -/
def afterMX {σ : Type} (r : Resolver σ) (S : SortSlice) (domain : String) (s : σ) : σ :=
  (getMXRecords r S domain (afterA r domain s)).2

/-- The state of the resolver after the A, MX and NS steps of `Query`. -/
def afterNS {σ : Type} (r : Resolver σ) (S : SortSlice) (domain : String) (s : σ) : σ :=
  (getNSRecords r S domain (afterMX r S domain s)).2

/-- The state of the resolver after the A, MX, NS and TXT steps of `Query`. -/
def afterTXT {σ : Type} (r : Resolver σ) (S : SortSlice) (domain : String) (s : σ) : σ :=
  (getCommonTXTRecords r domain (afterNS r S domain s)).2

/-- The answers of the reverse lookup for the given addresses in turn, each
asked in the state its predecessor left behind. -/
def reverseAnswers {σ : Type} (r : Resolver σ) :
    List String → σ → List (List String × Option GoError)
  | [], _ => []
  | addr :: rest, s =>
    let res := r.LookupAddr addr s
    res.1 :: reverseAnswers r rest res.2

/-- The string `v` is the trimmed form of a name `h` for which `Q` holds. -/
def TrimOf (Q : String → Prop) (v : String) : Prop :=
  ∃ h, Q h ∧ v = trimHostname h

/-- The name `h` is among the names a successful reverse lookup returns. -/
def ptrReturned {σ : Type} (r : Resolver σ) (h : String) : Prop :=
  ∃ (addr : String) (s : σ), (r.LookupAddr addr s).1.2 = none ∧ h ∈ (r.LookupAddr addr s).1.1

/-- The name `h` is the target of an entry a successful MX lookup of `domain`
returns. -/
def mxReturned {σ : Type} (r : Resolver σ) (domain : String) (h : String) : Prop :=
  ∃ s : σ, (r.LookupMX domain s).1.2 = none ∧ ∃ e ∈ (r.LookupMX domain s).1.1, e.Host = h

/-- The name `h` is the name server of an entry a successful NS lookup of
`domain` returns. -/
def nsReturned {σ : Type} (r : Resolver σ) (domain : String) (h : String) : Prop :=
  ∃ s : σ, (r.LookupNS domain s).1.2 = none ∧ ∃ e ∈ (r.LookupNS domain s).1.1, e.Host = h

/-- The name `h` is the canonical name a successful CNAME lookup of
`label.domain` returns. -/
def cnameReturned {σ : Type} (r : Resolver σ) (domain label : String) (h : String) : Prop :=
  ∃ s : σ, (r.LookupCNAME (label ++ "." ++ domain) s).1.2 = none ∧
    (r.LookupCNAME (label ++ "." ++ domain) s).1.1 = h

/-- Every reverse name stored in the records `ips` is the trimmed form of a
name a reverse lookup returned. -/
def ptrsTrimmed {σ : Type} (r : Resolver σ) (ips : List IP) : Prop :=
  ∀ ip ∈ ips, ∀ p ∈ ip.Ptrs, TrimOf (ptrReturned r) p

/-! ## Resolver behaviours used to run the model -/

/-- A resolver without state that answers every question of one kind alike. -/
def constResolver (host : List String × Option GoError) (mx : List NetMX × Option GoError)
    (ns : List NetNS × Option GoError) (txt : List String × Option GoError)
    (cname : String × Option GoError) (addr : List String × Option GoError) : Resolver Unit where
  LookupHost := fun _ s => (host, s)
  LookupMX := fun _ s => (mx, s)
  LookupNS := fun _ s => (ns, s)
  LookupTXT := fun _ s => (txt, s)
  LookupCNAME := fun _ s => (cname, s)
  LookupAddr := fun _ s => (addr, s)

/-- The answer `no such host` of the resolver. -/
def noSuchHost : GoError := .dns "no such host" true

/-- A DNS error that is not a not-found answer. -/
def serverMisbehaving : GoError := .dns "server misbehaving" false

/-- An error that is not a DNS error. -/
def plainError : GoError := .other "operation was canceled"

/-- Every host has the address 34.194.118.33, whose only reverse name is an
EC2 name with a trailing dot; there are no other records. -/
def ec2Resolver : Resolver Unit :=
  constResolver (["34.194.118.33"], none) ([], some noSuchHost) ([], some noSuchHost)
    ([], some noSuchHost) ("", some noSuchHost)
    (["ec2-34-194-118-33.compute-1.amazonaws.com."], none)

/-- Every host has the address 192.0.2.1, whose reverse lookup fails. -/
def noPtrResolver : Resolver Unit :=
  constResolver (["192.0.2.1"], none) ([], some noSuchHost) ([], some noSuchHost)
    ([], some noSuchHost) ("", some noSuchHost) ([], some noSuchHost)

/-- Three mail exchangers, returned out of order; every host has one address. -/
def mxResolver : Resolver Unit :=
  constResolver (["192.0.2.1"], none)
    ([⟨"b.example.com", 10⟩, ⟨"a.example.com", 5⟩, ⟨"c.example.com", 5⟩], none)
    ([], some noSuchHost) ([], some noSuchHost) ("", some noSuchHost) ([], some noSuchHost)

/-- Two name servers, returned out of order, with trailing dots. -/
def nsResolver : Resolver Unit :=
  constResolver (["192.0.2.1"], none) ([], some noSuchHost)
    ([⟨"ns12.domaincontrol.com."⟩, ⟨"ns11.domaincontrol.com."⟩], none)
    ([], some noSuchHost) ("", some noSuchHost) ([], some noSuchHost)

/-- The MX lookup fails with an error that is not a DNS error. -/
def mxCanceledResolver : Resolver Unit :=
  constResolver (["192.0.2.1"], none) ([], some plainError) ([], some noSuchHost)
    ([], some noSuchHost) ("", some noSuchHost) ([], some noSuchHost)

/-- The MX lookup fails with a DNS error that is not a not-found answer. -/
def mxFailResolver : Resolver Unit :=
  constResolver (["192.0.2.1"], none) ([], some serverMisbehaving) ([], some noSuchHost)
    ([], some noSuchHost) ("", some noSuchHost) ([], some noSuchHost)

/-- Addresses resolve, there are no MX or NS records, and every CNAME lookup
fails with a DNS error that is not a not-found answer. -/
def cnameFailResolver : Resolver Unit :=
  constResolver (["192.0.2.1"], none) ([], some noSuchHost) ([], some noSuchHost)
    ([], some noSuchHost) ("", some serverMisbehaving) ([], some noSuchHost)

/-- Addresses resolve, there are no MX or NS records, every TXT lookup fails
with a DNS error that is not a not-found answer, and every CNAME lookup fails
with an error that is not a DNS error. -/
def tolerantResolver : Resolver Unit :=
  constResolver (["192.0.2.1"], none) ([], some noSuchHost) ([], some noSuchHost)
    ([], some serverMisbehaving) ("", some plainError) ([], some noSuchHost)

/-- Every TXT lookup succeeds with no strings. -/
def emptyTxtResolver : Resolver Unit :=
  constResolver (["192.0.2.1"], none) ([], some noSuchHost) ([], some noSuchHost)
    ([], none) ("", some noSuchHost) ([], some noSuchHost)

/-- The TXT lookup counts its calls and succeeds on the first and third one. -/
def countingTxtResolver : Resolver Nat where
  LookupHost := fun _ s => ((["192.0.2.1"], none), s)
  LookupMX := fun _ s => (([], some noSuchHost), s)
  LookupNS := fun _ s => (([], some noSuchHost), s)
  LookupTXT := fun name s =>
    (if s = 0 ∨ s = 2 then (["txt for " ++ name], none) else ([], some noSuchHost), s + 1)
  LookupCNAME := fun _ s => (("", some noSuchHost), s)
  LookupAddr := fun _ s => (([], some noSuchHost), s)

/-- A domain with one address, one mail exchanger, one name server and the
same canonical name for every label; every name comes with a trailing dot. -/
def dottedResolver : Resolver Unit :=
  constResolver (["34.194.118.33"], none) ([⟨"aspmx.l.google.com.", 0⟩], none)
    ([⟨"ns11.domaincontrol.com."⟩], none) ([], some noSuchHost) ("example.com.", none)
    (["ec2-34-194-118-33.compute-1.amazonaws.com."], none)

/-! ## The owner classifier agrees with its reference definition -/

theorem length_lt_two_or_snoc2 (l : List String) :
    l.length < 2 ∨ ∃ init prev last, l = init ++ [prev, last] := by
  rcases List.eq_nil_or_concat l with h | ⟨l1, last, h⟩
  · left; simp [h]
  · rcases List.eq_nil_or_concat l1 with h1 | ⟨init, prev, h1⟩
    · left; simp [h, h1]
    · right
      exact ⟨init, prev, last, by simp [h, h1]⟩

theorem index_snoc2_last (init : List String) (prev last : String) :
    index (init ++ [prev, last]) ((init ++ [prev, last]).length - 1) = last := by
  induction init with
  | nil => rfl
  | cons a l ih => simpa [index] using ih

theorem index_snoc2_prev (init : List String) (prev last : String) :
    index (init ++ [prev, last]) ((init ++ [prev, last]).length - 1 - 1) = prev := by
  induction init with
  | nil => rfl
  | cons a l ih => simpa [index] using ih

/-- C1: `getOwner` coincides on every string with the reference definition
(strip one trailing dot, split on dots, require two labels, a last label `com`
or `net` and a table entry for the last two labels; `Unknown` otherwise), and
takes the four values listed in the specification. -/
theorem getOwner_eq_getOwnerSpec :
    (∀ name : String, getOwner name = getOwnerSpec name) ∧
    getOwner "ec2-34-194-118-33.compute-1.amazonaws.com" = "Amazon.com, Inc." ∧
    getOwner "yx-in-f26.1e100.net" = "Google LLC" ∧
    getOwner "host.unknownprovider.org" = "Unknown" ∧
    getOwner "singlelabel" = "Unknown" := by
  refine ⟨?_, by decide, by decide, by decide, by decide⟩
  intro name
  dsimp only [getOwner, getOwnerSpec]
  generalize split (trimSuffix name ".") '.' = parts
  rcases length_lt_two_or_snoc2 parts with h | ⟨init, prev, last, rfl⟩
  · match parts, h with
    | [], _ => simp [unknownOwner]
    | [a], _ => simp [unknownOwner]
  · have hlen : ¬ (init ++ [prev, last]).length < 2 := by simp
    simp only [hlen, if_false, index_snoc2_last, index_snoc2_prev]
    simp only [List.reverse_append, List.reverse_cons, List.reverse_nil, List.nil_append,
      List.singleton_append, List.cons_append, List.mem_cons, List.mem_singleton,
      List.not_mem_nil, or_false, unknownOwner]
    by_cases hl : last = "com" ∨ last = "net"
    · simp only [hl, if_true]
      cases owners.lookup (prev ++ "." ++ last) <;> rfl
    · simp only [hl, if_false]

/-! ## Trailing dots -/

theorem hasSuffix_iff (s suffix : String) :
    hasSuffix s suffix = true ↔ ∃ t, s.data = t ++ suffix.data := by
  unfold hasSuffix
  rw [List.isSuffixOf_iff_suffix]
  constructor
  · rintro ⟨t, ht⟩; exact ⟨t, ht.symm⟩
  · rintro ⟨t, ht⟩; exact ⟨t, ht.symm⟩

/-- C3 (counterexample): a name ending in two dots keeps a trailing dot. -/
theorem trimHostname_keeps_dot :
    trimHostname "example.com.." = "example.com." ∧
    hasSuffix (trimHostname "example.com..") "." = true := by
  decide

theorem trimHostname_dot_iff (h : String) :
    hasSuffix (trimHostname h) "." = true ↔ hasSuffix h ".." = true := by
  unfold trimHostname trimSuffix
  by_cases hs : hasSuffix h "." = true
  · obtain ⟨t, ht⟩ := (hasSuffix_iff h ".").1 hs
    have hd : ("." : String).data = ['.'] := rfl
    have hdd : (".." : String).data = ['.', '.'] := rfl
    rw [if_pos hs, hasSuffix_iff, hasSuffix_iff, ht, hd, hdd]
    simp only [List.length_append, List.length_singleton, Nat.add_sub_cancel,
      List.take_left']
    constructor
    · rintro ⟨u, hu⟩; exact ⟨u, by simp [hu]⟩
    · rintro ⟨u, hu⟩
      refine ⟨u, ?_⟩
      have : t ++ ['.'] = (u ++ ['.']) ++ ['.'] := by simpa using hu
      exact List.append_cancel_right this
  · rw [if_neg hs]
    constructor
    · intro h1; exact absurd h1 hs
    · intro h2
      obtain ⟨u, hu⟩ := (hasSuffix_iff h "..").1 h2
      exact absurd ((hasSuffix_iff h ".").2 ⟨u ++ ['.'], by simp [hu]⟩) hs

theorem trimHostname_of_dot (h : String) (hs : hasSuffix h "." = true) :
    (trimHostname h).data ++ ['.'] = h.data := by
  obtain ⟨t, ht⟩ := (hasSuffix_iff h ".").1 hs
  have hd : ("." : String).data = ['.'] := rfl
  unfold trimHostname trimSuffix
  rw [if_pos hs, ht, hd]
  simp

theorem trimHostname_of_no_dot (h : String) (hs : hasSuffix h "." = false) :
    trimHostname h = h := by
  unfold trimHostname trimSuffix
  rw [if_neg (by simp [hs])]

/-! ## Address records -/

theorem getIPsLoop_cons {σ : Type} (r : Resolver σ) (addr : String) (rest : List String)
    (s : σ) (ips : List IP) :
    getIPsLoop r (addr :: rest) s ips =
      getIPsLoop r rest (r.LookupAddr addr s).2 (ips ++ [ipOfAnswer addr (r.LookupAddr addr s).1]) := by
  simp only [getIPsLoop, ipOfAnswer]
  cases (r.LookupAddr addr s).1.2 <;> rfl

theorem getIPsLoop_acc {σ : Type} (r : Resolver σ) (addrs : List String) :
    ∀ (s : σ) (ips : List IP),
      getIPsLoop r addrs s ips =
        (ips ++ (getIPsLoop r addrs s []).1, (getIPsLoop r addrs s []).2) := by
  induction addrs with
  | nil => intro s ips; simp [getIPsLoop]
  | cons addr rest ih =>
    intro s ips
    rw [getIPsLoop_cons, getIPsLoop_cons, ih _ (ips ++ _), ih _ ([] ++ _)]
    simp

theorem getIPs_cons {σ : Type} (r : Resolver σ) (addr : String) (rest : List String) (s : σ) :
    getIPs r (addr :: rest) s =
      (ipOfAnswer addr (r.LookupAddr addr s).1 :: (getIPs r rest (r.LookupAddr addr s).2).1,
        (getIPs r rest (r.LookupAddr addr s).2).2) := by
  unfold getIPs
  rw [getIPsLoop_cons, getIPsLoop_acc]
  simp

theorem getIPs_eq_map {σ : Type} (r : Resolver σ) (addrs : List String) :
    ∀ s : σ, (getIPs r addrs s).1 =
      List.zipWith ipOfAnswer addrs (reverseAnswers r addrs s) := by
  induction addrs with
  | nil => intro s; rfl
  | cons addr rest ih =>
    intro s
    rw [getIPs_cons]
    simp [reverseAnswers, ih]

theorem reverseAnswers_length {σ : Type} (r : Resolver σ) (addrs : List String) :
    ∀ s : σ, (reverseAnswers r addrs s).length = addrs.length := by
  induction addrs with
  | nil => intro s; rfl
  | cons addr rest ih => intro s; simp [reverseAnswers, ih]

theorem getARecord_of_ok {σ : Type} (r : Resolver σ) (hostname : String) (s : σ)
    (h : (r.LookupHost hostname s).1.2 = none) :
    getARecord r hostname s =
      (((getIPs r (r.LookupHost hostname s).1.1 (r.LookupHost hostname s).2).1, none),
        (getIPs r (r.LookupHost hostname s).1.1 (r.LookupHost hostname s).2).2) := by
  simp only [getARecord, h]

/-- C2 (the code at the failing input): an address whose reverse lookup fails is
recorded with the empty string as owner, not with `Unknown`. -/
theorem getIPs_failed_reverse_lookup :
    (getIPs noPtrResolver ["192.0.2.1"] ()).1 =
      [{ Addr := "192.0.2.1", Ptrs := [], Owner := "" }] ∧
    (getARecord noPtrResolver "example.com" ()).1 =
      ([{ Addr := "192.0.2.1", Ptrs := [], Owner := "" }], none) := by
  decide

/-- C10: when the host lookup succeeds with `addrs`, `getARecord` returns no
error and one record per address, in the same order and with that address;
the record of an address whose reverse lookup succeeds carries the trimmed
reverse names (and the owner of the first one), the record of an address
whose reverse lookup fails carries no reverse names. -/
theorem getARecord_records {σ : Type} (r : Resolver σ) (hostname : String) (s : σ)
    (addrs : List String) (h : (r.LookupHost hostname s).1 = (addrs, none)) :
    (getARecord r hostname s).1.2 = none ∧
    (getARecord r hostname s).1.1.length = addrs.length ∧
    (getARecord r hostname s).1.1.map IP.Addr = addrs ∧
    List.Forall₂
      (fun ip ans =>
        (ans.2 = none → ip.Ptrs = ans.1.map trimHostname ∧
          ip.Owner = if ans.1.length > 0 then getOwner (index ans.1 0) else unknownOwner) ∧
        (ans.2 ≠ none → ip.Ptrs = []))
      (getARecord r hostname s).1.1
      (reverseAnswers r addrs (r.LookupHost hostname s).2) := by
  have h1 : (r.LookupHost hostname s).1.1 = addrs := by rw [h]
  have h2 : (r.LookupHost hostname s).1.2 = none := by rw [h]
  rw [getARecord_of_ok r hostname s h2, h1]
  simp only [getIPs_eq_map]
  generalize (r.LookupHost hostname s).2 = s1
  refine ⟨trivial, ?_, ?_, ?_⟩
  · simp [reverseAnswers_length]
  · clear h h1 h2
    induction addrs generalizing s1 with
    | nil => rfl
    | cons addr rest ih =>
      simp only [reverseAnswers, List.zipWith_cons_cons, List.map_cons, ih]
      simp only [ipOfAnswer]
      cases (r.LookupAddr addr s1).1.2 <;> rfl
  · clear h h1 h2
    induction addrs generalizing s1 with
    | nil => exact List.Forall₂.nil
    | cons addr rest ih =>
      simp only [reverseAnswers, List.zipWith_cons_cons]
      refine List.Forall₂.cons ?_ (ih _)
      simp only [ipOfAnswer]
      cases hans : (r.LookupAddr addr s1).1.2 <;> simp

/-- C10 (witness): one address whose only reverse name is an EC2 name. -/
theorem getARecord_records_witness :
    (ec2Resolver.LookupHost "ericdaugherty.com" ()).1 = (["34.194.118.33"], none) ∧
    (getARecord ec2Resolver "ericdaugherty.com" ()).1.2 = none ∧
    (getARecord ec2Resolver "ericdaugherty.com" ()).1.1.length = 1 ∧
    (getARecord ec2Resolver "ericdaugherty.com" ()).1.1 =
      [{ Addr := "34.194.118.33", Ptrs := ["ec2-34-194-118-33.compute-1.amazonaws.com"],
         Owner := "Amazon.com, Inc." }] :=
  ⟨rfl, (getARecord_records ec2Resolver "ericdaugherty.com" () ["34.194.118.33"] rfl).1,
    (getARecord_records ec2Resolver "ericdaugherty.com" () ["34.194.118.33"] rfl).2.1,
    by decide⟩

/-! ## The string order and the sorter -/

theorem char_toNat_inj {a b : Char} (h : a.toNat = b.toNat) : a = b := by
  rw [← Char.ofNat_toNat a, ← Char.ofNat_toNat b, h]

theorem ltChars_irrefl (a : List Char) : ltChars a a = false := by
  induction a with
  | nil => rfl
  | cons c cs ih => simp [ltChars, ih]

theorem ltChars_trans : ∀ (a b c : List Char),
    ltChars a b = true → ltChars b c = true → ltChars a c = true
  | [], [], _, h, _ => by simp [ltChars] at h
  | [], _ :: _, [], _, h => by simp [ltChars] at h
  | [], _ :: _, _ :: _, _, _ => by simp [ltChars]
  | _ :: _, [], _, h, _ => by simp [ltChars] at h
  | _ :: _, _ :: _, [], _, h => by simp [ltChars] at h
  | x :: xs, y :: ys, z :: zs, h1, h2 => by
    have ih := ltChars_trans xs ys zs
    simp only [ltChars] at h1 h2 ⊢
    split_ifs at h1 h2 ⊢ <;> first | rfl | omega | (exact ih h1 h2)

theorem ltChars_negtrans : ∀ (a b c : List Char),
    ltChars a b = false → ltChars b c = false → ltChars a c = false
  | [], [], _, _, h => h
  | [], _ :: _, _, h, _ => by simp [ltChars] at h
  | _ :: _, [], [], _, _ => by simp [ltChars]
  | _ :: _, [], _ :: _, _, h => by simp [ltChars] at h
  | _ :: _, _ :: _, [], _, _ => by simp [ltChars]
  | x :: xs, y :: ys, z :: zs, h1, h2 => by
    have ih := ltChars_negtrans xs ys zs
    simp only [ltChars] at h1 h2 ⊢
    split_ifs at h1 h2 ⊢ <;> first | rfl | omega | (exact ih h1 h2)

theorem ltChars_total : ∀ (a b : List Char),
    ltChars a b = false → ltChars b a = false → a = b
  | [], [], _, _ => rfl
  | [], _ :: _, h, _ => by simp [ltChars] at h
  | _ :: _, [], _, h => by simp [ltChars] at h
  | x :: xs, y :: ys, h1, h2 => by
    have ih := ltChars_total xs ys
    simp only [ltChars] at h1 h2
    split_ifs at h1 h2
    have hxy : x = y := char_toNat_inj (by omega)
    rw [hxy, ih h1 h2]

theorem strLess_total (a b : String) (h1 : strLess a b = false) (h2 : strLess b a = false) :
    a = b := by
  have := ltChars_total a.data b.data h1 h2
  cases a; cases b; simp_all

theorem orderedInsert_perm {α : Type} (less : α → α → Bool) (a : α) (l : List α) :
    (orderedInsert less a l).Perm (a :: l) := by
  induction l with
  | nil => exact List.Perm.refl _
  | cons b l ih =>
    simp only [orderedInsert]
    split_ifs
    · exact ((List.Perm.cons b ih).trans (List.Perm.swap a b l))
    · exact List.Perm.refl _

theorem insertionSort_perm {α : Type} (less : α → α → Bool) (l : List α) :
    (insertionSort less l).Perm l := by
  induction l with
  | nil => exact List.Perm.refl _
  | cons a l ih =>
    exact (orderedInsert_perm less a _).trans (List.Perm.cons a ih)

theorem orderedInsert_sorted {α : Type} (less : α → α → Bool)
    (hirr : ∀ a, less a a = false)
    (htr : ∀ a b c, less a b = true → less b c = true → less a c = true)
    (hneg : ∀ a b c, less a b = false → less b c = false → less a c = false)
    (a : α) (l : List α) (h : l.Pairwise (fun x y => less y x = false)) :
    (orderedInsert less a l).Pairwise (fun x y => less y x = false) := by
  induction l with
  | nil => simp [orderedInsert]
  | cons b l ih =>
    rw [List.pairwise_cons] at h
    simp only [orderedInsert]
    by_cases hba : less b a = true
    · rw [if_pos hba, List.pairwise_cons]
      refine ⟨?_, ih h.2⟩
      intro y hy
      rcases (List.mem_cons.1 ((orderedInsert_perm less a l).mem_iff.1 hy)) with rfl | hy
      · cases hab : less y b with
        | false => rfl
        | true => have := htr _ _ _ hab hba; rw [hirr] at this; exact absurd this (by simp)
      · exact h.1 y hy
    · rw [if_neg hba, List.pairwise_cons, List.pairwise_cons]
      have hba' : less b a = false := by simpa using hba
      refine ⟨?_, h⟩
      intro y hy
      rcases List.mem_cons.1 hy with rfl | hy
      · exact hba'
      · exact hneg _ _ _ (h.1 y hy) hba'

theorem insertionSort_sorted {α : Type} (less : α → α → Bool)
    (hirr : ∀ a, less a a = false)
    (htr : ∀ a b c, less a b = true → less b c = true → less a c = true)
    (hneg : ∀ a b c, less a b = false → less b c = false → less a c = false)
    (l : List α) : (insertionSort less l).Pairwise (fun x y => less y x = false) := by
  induction l with
  | nil => exact List.Pairwise.nil
  | cons a l ih => exact orderedInsert_sorted less hirr htr hneg a _ ih

theorem strLess_irrefl (a : String) : strLess a a = false := ltChars_irrefl _

theorem strLess_trans (a b c : String) (h1 : strLess a b = true) (h2 : strLess b c = true) :
    strLess a c = true := ltChars_trans _ _ _ h1 h2

theorem strLess_negtrans (a b c : String) (h1 : strLess a b = false)
    (h2 : strLess b c = false) : strLess a c = false := ltChars_negtrans _ _ _ h1 h2

theorem insertionSortSlice_correct : insertionSortSlice.Correct := by
  intro α less l hirr htr hneg
  exact ⟨insertionSort_perm less l, insertionSort_sorted less hirr htr hneg l⟩

theorem mxLess_irrefl (a : MXRecord) : mxLess a a = false := by
  simp [mxLess, strLess_irrefl]

theorem mxLess_trans (a b c : MXRecord) (h1 : mxLess a b = true) (h2 : mxLess b c = true) :
    mxLess a c = true := by
  unfold mxLess at h1 h2 ⊢
  by_cases hab : a.Priority = b.Priority
  · by_cases hbc : b.Priority = c.Priority
    · rw [if_pos hab] at h1
      rw [if_pos hbc] at h2
      rw [if_pos (hab.trans hbc)]
      exact strLess_trans _ _ _ h1 h2
    · rw [if_neg hbc, decide_eq_true_eq] at h2
      have hac : ¬ a.Priority = c.Priority := by omega
      rw [if_neg hac, decide_eq_true_eq]
      omega
  · rw [if_neg hab, decide_eq_true_eq] at h1
    by_cases hbc : b.Priority = c.Priority
    · have hac : ¬ a.Priority = c.Priority := by omega
      rw [if_neg hac, decide_eq_true_eq]
      omega
    · rw [if_neg hbc, decide_eq_true_eq] at h2
      have hac : ¬ a.Priority = c.Priority := by omega
      rw [if_neg hac, decide_eq_true_eq]
      omega

theorem mxLess_negtrans (a b c : MXRecord) (h1 : mxLess a b = false)
    (h2 : mxLess b c = false) : mxLess a c = false := by
  unfold mxLess at h1 h2 ⊢
  by_cases hab : a.Priority = b.Priority
  · by_cases hbc : b.Priority = c.Priority
    · rw [if_pos hab] at h1
      rw [if_pos hbc] at h2
      rw [if_pos (hab.trans hbc)]
      exact strLess_negtrans _ _ _ h1 h2
    · rw [if_neg hbc, decide_eq_false_iff_not] at h2
      have hac : ¬ a.Priority = c.Priority := by omega
      rw [if_neg hac, decide_eq_false_iff_not]
      omega
  · rw [if_neg hab, decide_eq_false_iff_not] at h1
    by_cases hbc : b.Priority = c.Priority
    · have hac : ¬ a.Priority = c.Priority := by omega
      rw [if_neg hac, decide_eq_false_iff_not]
      omega
    · rw [if_neg hbc, decide_eq_false_iff_not] at h2
      have hac : ¬ a.Priority = c.Priority := by omega
      rw [if_neg hac, decide_eq_false_iff_not]
      omega

theorem keyLe_of_mxLess (a b : MXRecord) (h : mxLess b a = false) :
    keyLe (mxKey a) (mxKey b) := by
  unfold mxLess at h
  unfold keyLe mxKey
  split_ifs at h with hp
  · exact Or.inr ⟨hp.symm, h⟩
  · simp only [decide_eq_false_iff_not] at h
    left
    show a.Priority < b.Priority
    omega

theorem keyLe_antisymm (a b : Nat × String) (h1 : keyLe a b) (h2 : keyLe b a) : a = b := by
  unfold keyLe at h1 h2
  rcases h1 with h1 | ⟨e1, l1⟩
  · rcases h2 with h2 | ⟨e2, _⟩ <;> omega
  · rcases h2 with h2 | ⟨_, l2⟩
    · omega
    · exact Prod.ext e1 (strLess_total _ _ l2 l1)

theorem nameLe_antisymm (a b : String) (h1 : nameLe a b) (h2 : nameLe b a) : a = b :=
  strLess_total _ _ h2 h1

/-! ## Mail exchangers and name servers -/

theorem getMXLoop_ok {σ : Type} (r : Resolver σ) (entries : List NetMX)
    (hA : ∀ e ∈ entries, ∀ s : σ, (r.LookupHost e.Host s).1.2 = none) :
    ∀ (s : σ) (mx : List MXRecord),
      (getMXLoop r entries s mx).1.2 = none ∧
      (getMXLoop r entries s mx).1.1.map mxKey = mx.map mxKey ++ entries.map entryKey := by
  induction entries with
  | nil => intro s mx; simp [getMXLoop]
  | cons e rest ih =>
    intro s mx
    have hok : (getARecord r e.Host s).1.2 = none := by
      rw [getARecord_of_ok r e.Host s (hA e (List.mem_cons_self _ _) s)]
    have ih' := ih (fun e' he' => hA e' (List.mem_cons_of_mem _ he'))
    simp only [getMXLoop, hok]
    refine ⟨(ih' _ _).1, ?_⟩
    rw [(ih' _ _).2]
    simp [mxKey, entryKey]

theorem getNSLoop_ok {σ : Type} (r : Resolver σ) (entries : List NetNS)
    (hA : ∀ e ∈ entries, ∀ s : σ, (r.LookupHost e.Host s).1.2 = none) :
    ∀ (s : σ) (ns : List Host),
      (getNSLoop r entries s ns).1.2 = none ∧
      (getNSLoop r entries s ns).1.1.map Host.Name =
        ns.map Host.Name ++ entries.map (fun e => trimHostname e.Host) := by
  induction entries with
  | nil => intro s ns; simp [getNSLoop]
  | cons e rest ih =>
    intro s ns
    have hok : (getARecord r e.Host s).1.2 = none := by
      rw [getARecord_of_ok r e.Host s (hA e (List.mem_cons_self _ _) s)]
    have ih' := ih (fun e' he' => hA e' (List.mem_cons_of_mem _ he'))
    simp only [getNSLoop, hok]
    refine ⟨(ih' _ _).1, ?_⟩
    rw [(ih' _ _).2]
    simp

/-- C4: when the MX lookup succeeds with `entries` and the address lookup of
every target succeeds, `getMXRecords` returns no error; the keys (priority,
name) of its records are a permutation of the keys (preference, trimmed
target) of the entries, in ascending order of priority and, within a
priority, of name; and they are the only such arrangement, so the outcome does
not depend on the order of the entries. -/
theorem getMXRecords_sorted {σ : Type} (r : Resolver σ) (S : SortSlice) (hS : S.Correct)
    (hostname : String) (s : σ) (entries : List NetMX)
    (hmx : (r.LookupMX hostname s).1 = (entries, none))
    (hA : ∀ e ∈ entries, ∀ s' : σ, (r.LookupHost e.Host s').1.2 = none) :
    (getMXRecords r S hostname s).1.2 = none ∧
    ((getMXRecords r S hostname s).1.1.map mxKey).Perm (entries.map entryKey) ∧
    ((getMXRecords r S hostname s).1.1.map mxKey).Pairwise keyLe ∧
    ∀ l : List (Nat × String), l.Perm (entries.map entryKey) → l.Pairwise keyLe →
      l = (getMXRecords r S hostname s).1.1.map mxKey := by
  have h1 : (r.LookupMX hostname s).1.1 = entries := by rw [hmx]
  have h2 : (r.LookupMX hostname s).1.2 = none := by rw [hmx]
  obtain ⟨hl1, hl2⟩ := getMXLoop_ok r entries hA (r.LookupMX hostname s).2 []
  obtain ⟨hperm, hsorted⟩ :=
    hS mxLess (getMXLoop r entries (r.LookupMX hostname s).2 []).1.1
      mxLess_irrefl mxLess_trans mxLess_negtrans
  have hout : (getMXRecords r S hostname s).1 =
      (S.sort mxLess (getMXLoop r entries (r.LookupMX hostname s).2 []).1.1, none) := by
    simp only [getMXRecords, h1, h2, hl1]
  rw [hout]
  have hp : ((S.sort mxLess (getMXLoop r entries (r.LookupMX hostname s).2 []).1.1).map
      mxKey).Perm (entries.map entryKey) := by
    have := hperm.map mxKey
    rw [hl2] at this
    simpa using this
  have hs : ((S.sort mxLess (getMXLoop r entries (r.LookupMX hostname s).2 []).1.1).map
      mxKey).Pairwise keyLe := by
    rw [List.pairwise_map]
    exact hsorted.imp (fun {a b} h => keyLe_of_mxLess a b h)
  refine ⟨rfl, hp, hs, ?_⟩
  intro l hlp hls
  haveI : IsAntisymm (Nat × String) keyLe := ⟨keyLe_antisymm⟩
  exact List.eq_of_perm_of_sorted (hlp.trans hp.symm) hls hs

/-- C4 (witness): entries (10, b), (5, a), (5, c) come out as (5, a), (5, c), (10, b). -/
theorem getMXRecords_sorted_witness :
    (mxResolver.LookupMX "example.com" ()).1 =
      ([⟨"b.example.com", 10⟩, ⟨"a.example.com", 5⟩, ⟨"c.example.com", 5⟩], none) ∧
    (getMXRecords mxResolver insertionSortSlice "example.com" ()).1.2 = none ∧
    (getMXRecords mxResolver insertionSortSlice "example.com" ()).1.1.map mxKey =
      [(5, "a.example.com"), (5, "c.example.com"), (10, "b.example.com")] :=
  ⟨rfl,
    (getMXRecords_sorted mxResolver insertionSortSlice insertionSortSlice_correct "example.com" ()
      [⟨"b.example.com", 10⟩, ⟨"a.example.com", 5⟩, ⟨"c.example.com", 5⟩] rfl
      (fun _ _ _ => rfl)).1,
    by decide⟩

/-- C5: when the NS lookup succeeds with `entries` and the address lookup of
every name server succeeds, `getNSRecords` returns no error; the names of its
hosts are a permutation of the trimmed names of the entries, in ascending
order, and they are the only such arrangement. -/
theorem getNSRecords_sorted {σ : Type} (r : Resolver σ) (S : SortSlice) (hS : S.Correct)
    (hostname : String) (s : σ) (entries : List NetNS)
    (hns : (r.LookupNS hostname s).1 = (entries, none))
    (hA : ∀ e ∈ entries, ∀ s' : σ, (r.LookupHost e.Host s').1.2 = none) :
    (getNSRecords r S hostname s).1.2 = none ∧
    ((getNSRecords r S hostname s).1.1.map Host.Name).Perm
      (entries.map (fun e => trimHostname e.Host)) ∧
    ((getNSRecords r S hostname s).1.1.map Host.Name).Pairwise nameLe ∧
    ∀ l : List String, l.Perm (entries.map (fun e => trimHostname e.Host)) →
      l.Pairwise nameLe → l = (getNSRecords r S hostname s).1.1.map Host.Name := by
  have h1 : (r.LookupNS hostname s).1.1 = entries := by rw [hns]
  have h2 : (r.LookupNS hostname s).1.2 = none := by rw [hns]
  obtain ⟨hl1, hl2⟩ := getNSLoop_ok r entries hA (r.LookupNS hostname s).2 []
  obtain ⟨hperm, hsorted⟩ :=
    hS nsLess (getNSLoop r entries (r.LookupNS hostname s).2 []).1.1
      (fun a => strLess_irrefl _) (fun a b c => strLess_trans _ _ _)
      (fun a b c => strLess_negtrans _ _ _)
  have hout : (getNSRecords r S hostname s).1 =
      (S.sort nsLess (getNSLoop r entries (r.LookupNS hostname s).2 []).1.1, none) := by
    simp only [getNSRecords, h1, h2, hl1]
  rw [hout]
  have hp : ((S.sort nsLess (getNSLoop r entries (r.LookupNS hostname s).2 []).1.1).map
      Host.Name).Perm (entries.map (fun e => trimHostname e.Host)) := by
    have := hperm.map Host.Name
    rw [hl2] at this
    simpa using this
  have hs : ((S.sort nsLess (getNSLoop r entries (r.LookupNS hostname s).2 []).1.1).map
      Host.Name).Pairwise nameLe := by
    rw [List.pairwise_map]
    exact hsorted.imp (fun {a b} h => h)
  refine ⟨rfl, hp, hs, ?_⟩
  intro l hlp hls
  haveI : IsAntisymm String nameLe := ⟨nameLe_antisymm⟩
  exact List.eq_of_perm_of_sorted (hlp.trans hp.symm) hls hs

/-- C5 (witness): two name servers returned out of order and with trailing dots. -/
theorem getNSRecords_sorted_witness :
    (nsResolver.LookupNS "ericdaugherty.com" ()).1 =
      ([⟨"ns12.domaincontrol.com."⟩, ⟨"ns11.domaincontrol.com."⟩], none) ∧
    (getNSRecords nsResolver insertionSortSlice "ericdaugherty.com" ()).1.2 = none ∧
    (getNSRecords nsResolver insertionSortSlice "ericdaugherty.com" ()).1.1.map Host.Name =
      ["ns11.domaincontrol.com", "ns12.domaincontrol.com"] :=
  ⟨rfl,
    (getNSRecords_sorted nsResolver insertionSortSlice insertionSortSlice_correct
      "ericdaugherty.com" () [⟨"ns12.domaincontrol.com."⟩, ⟨"ns11.domaincontrol.com."⟩] rfl
      (fun _ _ _ => rfl)).1,
    by decide⟩

/-! ## Errors of the MX lookup -/

theorem wraps_self (e : GoError) : wraps e e = true := by
  cases e <;> simp [wraps]

theorem wraps_errorf (kind hostname : String) (e : GoError) :
    wraps (errorf kind hostname e) e = true := by
  simp [errorf, wraps, wraps_self]

theorem isFatalDNS_eq_false (e : GoError) (hd : errorsAsDNS e ≠ some false) :
    isFatalDNS e = false := by
  unfold isFatalDNS
  cases hx : errorsAsDNS e with
  | none => rfl
  | some b =>
    cases b with
    | true => rfl
    | false => exact absurd hx hd

/-- C7 (counterexample): an MX lookup error that is not a DNS error at all, hence
not classified as not found, yields an empty sequence and no error. -/
theorem getMXRecords_swallows_plain_error :
    (mxCanceledResolver.LookupMX "example.com" ()).1.2 = some plainError ∧
    errorsAsDNS plainError = none ∧
    (getMXRecords mxCanceledResolver insertionSortSlice "example.com" ()).1 = ([], none) := by
  decide

/-- C7 (amended): when the MX lookup fails with `e`, `getMXRecords` returns an
error exactly when `e` is a DNS error whose not-found flag is unset, and that
error wraps `e`; for every other `e` (a not-found DNS error, or an error that
is no DNS error) it returns an empty sequence and no error. -/
theorem getMXRecords_lookup_error {σ : Type} (r : Resolver σ) (S : SortSlice)
    (hostname : String) (s : σ) (e : GoError) (h : (r.LookupMX hostname s).1.2 = some e) :
    (errorsAsDNS e = some false →
      (getMXRecords r S hostname s).1 = ([], some (errorf "MX Records" hostname e)) ∧
      wraps (errorf "MX Records" hostname e) e = true) ∧
    (errorsAsDNS e ≠ some false → (getMXRecords r S hostname s).1 = ([], none)) := by
  constructor
  · intro hd
    have hf : isFatalDNS e = true := by simp [isFatalDNS, hd]
    exact ⟨by simp only [getMXRecords, h, hf, if_true], wraps_errorf _ _ _⟩
  · intro hd
    simp [getMXRecords, h, isFatalDNS_eq_false e hd]

/-- C7 (witness): a DNS error that is not a not-found answer is fatal. -/
theorem getMXRecords_lookup_error_witness :
    (mxFailResolver.LookupMX "example.com" ()).1.2 = some serverMisbehaving ∧
    errorsAsDNS serverMisbehaving = some false ∧
    (getMXRecords mxFailResolver insertionSortSlice "example.com" ()).1 =
      ([], some (errorf "MX Records" "example.com" serverMisbehaving)) :=
  ⟨rfl, rfl,
    ((getMXRecords_lookup_error mxFailResolver insertionSortSlice "example.com" ()
      serverMisbehaving rfl).1 rfl).1⟩

/-! ## The steps of `Query` -/

theorem getCommonTXTRecords_no_error {σ : Type} (r : Resolver σ) (hostname : String) (s : σ) :
    (getCommonTXTRecords r hostname s).1.2 = none := rfl

theorem getCNAMELoop_tolerated {σ : Type} (r : Resolver σ) (hostname : String)
    (hC : ∀ (name : String) (s : σ) (e : GoError),
      (r.LookupCNAME name s).1.2 = some e → errorsAsDNS e ≠ some false)
    (cands : List String) :
    ∀ (s : σ) (cname : List (String × String)),
      (getCNAMELoop r hostname cands s cname).1.2 = none := by
  induction cands with
  | nil => intro s cname; rfl
  | cons n rest ih =>
    intro s cname
    simp only [getCNAMELoop]
    cases herr : (r.LookupCNAME (n ++ "." ++ hostname) s).1.2 with
    | none => exact ih _ _
    | some e =>
      simp only [isFatalDNS_eq_false e (hC _ _ _ herr)]
      exact ih _ _

/-- C8: `Query` runs the steps A, MX, NS, TXT, CNAME in this order and stops at
the first one that fails.  The zone always carries the domain as its name.  If
the A step fails, `Query` returns its error, no later lookup is made, and all
five record fields are empty.  If the MX (NS) step is the first to fail,
`Query` returns its error, no later lookup is made, the earlier fields hold
the earlier results and the later fields are empty.  The TXT step never
fails, and when A, MX and NS succeed the error of `Query` is that of the CNAME
step, all five fields holding the results of their steps. -/
theorem Query_stops_at_first_failure {σ : Type} (r : Resolver σ) (S : SortSlice)
    (domain : String) (s : σ) :
    (Query r S domain s).1.1.Name = domain ∧
    (∀ e, (getARecord r domain s).1.2 = some e →
      Query r S domain s =
        (({ Name := domain, A := [], MX := [], NS := [], TXT := [], CNAME := [] }, some e),
          afterA r domain s)) ∧
    ((getARecord r domain s).1.2 = none →
      ∀ e, (getMXRecords r S domain (afterA r domain s)).1.2 = some e →
      Query r S domain s =
        (({ Name := domain, A := (getARecord r domain s).1.1,
            MX := (getMXRecords r S domain (afterA r domain s)).1.1,
            NS := [], TXT := [], CNAME := [] }, some e),
          afterMX r S domain s)) ∧
    ((getARecord r domain s).1.2 = none →
      (getMXRecords r S domain (afterA r domain s)).1.2 = none →
      ∀ e, (getNSRecords r S domain (afterMX r S domain s)).1.2 = some e →
      Query r S domain s =
        (({ Name := domain, A := (getARecord r domain s).1.1,
            MX := (getMXRecords r S domain (afterA r domain s)).1.1,
            NS := (getNSRecords r S domain (afterMX r S domain s)).1.1,
            TXT := [], CNAME := [] }, some e),
          afterNS r S domain s)) ∧
    ((getARecord r domain s).1.2 = none →
      (getMXRecords r S domain (afterA r domain s)).1.2 = none →
      (getNSRecords r S domain (afterMX r S domain s)).1.2 = none →
      (getCommonTXTRecords r domain (afterNS r S domain s)).1.2 = none ∧
      Query r S domain s =
        (({ Name := domain, A := (getARecord r domain s).1.1,
            MX := (getMXRecords r S domain (afterA r domain s)).1.1,
            NS := (getNSRecords r S domain (afterMX r S domain s)).1.1,
            TXT := (getCommonTXTRecords r domain (afterNS r S domain s)).1.1,
            CNAME := (getCNAMERecords r domain (afterTXT r S domain s)).1.1 },
          (getCNAMERecords r domain (afterTXT r S domain s)).1.2),
          (getCNAMERecords r domain (afterTXT r S domain s)).2)) := by
  refine ⟨?_, ?_, ?_, ?_, ?_⟩
  · simp only [Query]
    repeat' split
    all_goals rfl
  · intro e he
    have hnil : (getARecord r domain s).1.1 = [] := by
      simp only [getARecord] at he ⊢
      cases hl : (r.LookupHost domain s).1.2 with
      | none => rw [hl] at he; simp at he
      | some e' => rfl
    simp only [Query, he, hnil, afterA]
  · intro hA e he
    simp only [afterA] at he
    simp only [Query, hA, he, afterA, afterMX]
  · intro hA hM e he
    simp only [afterA, afterMX] at hM he
    simp only [Query, hA, hM, he, afterA, afterMX, afterNS]
  · intro hA hM hN
    simp only [afterA, afterMX] at hM hN
    refine ⟨rfl, ?_⟩
    simp only [Query, hA, hM, hN, afterA, afterMX, afterNS, afterTXT,
      getCommonTXTRecords_no_error]
    cases (getCNAMERecords r domain
      (getCommonTXTRecords r domain (getNSRecords r S domain
        (getMXRecords r S domain (getARecord r domain s).2).2).2).2).1.2 <;> rfl

/-- C8 (witness): the MX step fails; the NS, TXT and CNAME fields stay empty. -/
theorem Query_stops_at_first_failure_witness :
    (getARecord mxFailResolver "example.com" ()).1.2 = none ∧
    (getMXRecords mxFailResolver insertionSortSlice "example.com"
      (afterA mxFailResolver "example.com" ())).1.2 =
      some (errorf "MX Records" "example.com" serverMisbehaving) ∧
    Query mxFailResolver insertionSortSlice "example.com" () =
      (({ Name := "example.com", A := [{ Addr := "192.0.2.1", Ptrs := [], Owner := "" }],
          MX := [], NS := [], TXT := [], CNAME := [] },
        some (errorf "MX Records" "example.com" serverMisbehaving)), ()) :=
  ⟨rfl, rfl,
    (Query_stops_at_first_failure mxFailResolver insertionSortSlice "example.com" ()).2.2.1
      rfl _ rfl⟩

/-- C6 (counterexample): the A, MX and NS steps succeed, a CNAME lookup fails
with a DNS error that is not a not-found answer, and `Query` fails. -/
theorem Query_fails_on_cname_error :
    (getARecord cnameFailResolver "example.com" ()).1.2 = none ∧
    (getMXRecords cnameFailResolver insertionSortSlice "example.com" ()).1.2 = none ∧
    (getNSRecords cnameFailResolver insertionSortSlice "example.com" ()).1.2 = none ∧
    (cnameFailResolver.LookupCNAME "www.example.com" ()).1.2 = some serverMisbehaving ∧
    (Query cnameFailResolver insertionSortSlice "example.com" ()).1.2 =
      some (errorf "CNAME Records" "example.com" serverMisbehaving) := by
  decide

/-- C6 (amended): when the A, MX and NS steps succeed, the error of `Query` is
that of the CNAME step, whatever the TXT lookups return; and `Query` returns
no error when no CNAME lookup returns a DNS error whose not-found flag is
unset, that is when every CNAME error is a not-found DNS error or no DNS
error at all. -/
theorem Query_ok_of_tolerated_cname {σ : Type} (r : Resolver σ) (S : SortSlice)
    (domain : String) (s : σ)
    (hA : (getARecord r domain s).1.2 = none)
    (hM : (getMXRecords r S domain (afterA r domain s)).1.2 = none)
    (hN : (getNSRecords r S domain (afterMX r S domain s)).1.2 = none) :
    (Query r S domain s).1.2 = (getCNAMERecords r domain (afterTXT r S domain s)).1.2 ∧
    ((∀ (name : String) (s' : σ) (e : GoError),
        (r.LookupCNAME name s').1.2 = some e → errorsAsDNS e ≠ some false) →
      (Query r S domain s).1.2 = none) := by
  have hQ : (Query r S domain s).1.2 =
      (getCNAMERecords r domain (afterTXT r S domain s)).1.2 := by
    simp only [afterA, afterMX] at hM hN
    simp only [Query, hA, hM, hN, afterA, afterMX, afterNS, afterTXT,
      getCommonTXTRecords_no_error]
    cases (getCNAMERecords r domain
      (getCommonTXTRecords r domain (getNSRecords r S domain
        (getMXRecords r S domain (getARecord r domain s).2).2).2).2).1.2 <;> rfl
  refine ⟨hQ, fun hC => ?_⟩
  rw [hQ]
  exact getCNAMELoop_tolerated r domain hC commonCNAMERecords _ _

/-- C6 (witness): every TXT lookup fails with a DNS error that is not a
not-found answer, every CNAME lookup with an error that is no DNS error, and
`Query` succeeds. -/
theorem Query_ok_of_tolerated_cname_witness :
    (tolerantResolver.LookupTXT "example.com" ()).1.2 = some serverMisbehaving ∧
    (tolerantResolver.LookupCNAME "www.example.com" ()).1.2 = some plainError ∧
    (Query tolerantResolver insertionSortSlice "example.com" ()).1.2 = none :=
  ⟨rfl, rfl,
    (Query_ok_of_tolerated_cname tolerantResolver insertionSortSlice "example.com" ()
      rfl rfl rfl).2
      (fun _ _ e he => by
        have : e = plainError := (Option.some.inj he).symm
        rw [this]; decide)⟩

/-! ## TXT records -/

theorem lookup_filter_ne {β : Type} (m : List (String × β)) (k k' : String) (h : k ≠ k') :
    (m.filter (fun p => p.1 != k')).lookup k = m.lookup k := by
  induction m with
  | nil => rfl
  | cons p m ih =>
    obtain ⟨pk, pv⟩ := p
    by_cases hp : pk = k'
    · subst hp
      have hk : (k == pk) = false := by simpa using h
      simp [List.filter_cons, List.lookup_cons, hk, ih]
    · have hp' : (pk != k') = true := by simpa using hp
      simp only [List.filter_cons, hp', if_true, List.lookup_cons, ih]

theorem lookup_mapSet {β : Type} (m : List (String × β)) (k k' : String) (v : β) :
    (mapSet m k' v).lookup k = if k = k' then some v else m.lookup k := by
  unfold mapSet
  by_cases h : k = k'
  · subst h; simp [List.lookup_cons]
  · have hk : (k == k') = false := by simpa using h
    simp [List.lookup_cons, hk, h, lookup_filter_ne m k k' h]

theorem txtAnswers_names {σ : Type} (r : Resolver σ) (hostname : String) (cands : List String) :
    ∀ s : σ, (txtAnswers r hostname cands s).map Prod.fst =
      cands.map (fun n => txtName n hostname) := by
  induction cands with
  | nil => intro s; rfl
  | cons n rest ih => intro s; simp [txtAnswers, ih]

theorem getTXTLoop_lookup {σ : Type} (r : Resolver σ) (hostname : String) (k : String)
    (v : List String) (cands : List String) :
    (cands.map (fun n => txtName n hostname)).Nodup →
    ∀ (s : σ) (txts : List (String × List String)),
      (∀ n ∈ cands, txts.lookup (txtName n hostname) = none) →
      ((getTXTLoop r hostname cands s txts).1.lookup k = some v ↔
        txts.lookup k = some v ∨ (k, (v, none)) ∈ txtAnswers r hostname cands s) := by
  induction cands with
  | nil => intro _ s txts _; simp [getTXTLoop, txtAnswers]
  | cons n rest ih =>
    intro hnd s txts hfresh
    rw [List.map_cons, List.nodup_cons] at hnd
    have hn : txts.lookup (txtName n hostname) = none := hfresh n (List.mem_cons_self _ _)
    simp only [getTXTLoop, txtAnswers, List.mem_cons]
    cases herr : (r.LookupTXT (txtName n hostname) s).1.2 with
    | some e =>
      simp only []
      rw [ih hnd.2 _ txts (fun n' hn' => hfresh n' (List.mem_cons_of_mem _ hn'))]
      have hne : ¬ (k, v, (none : Option GoError)) =
          (txtName n hostname, (r.LookupTXT (txtName n hostname) s).1) := by
        intro heq
        have h2 : (none : Option GoError) = (r.LookupTXT (txtName n hostname) s).1.2 :=
          congrArg (fun p => p.2.2) heq
        rw [herr] at h2
        exact absurd h2 (by simp)
      simp only [hne, false_or]
    | none =>
      simp only []
      have hfresh' : ∀ n' ∈ rest,
          (mapSet txts (txtName n hostname) (r.LookupTXT (txtName n hostname) s).1.1).lookup
            (txtName n' hostname) = none := by
        intro n' hn'
        have hne : txtName n' hostname ≠ txtName n hostname := by
          intro heq
          exact hnd.1 (heq ▸ List.mem_map_of_mem (fun n => txtName n hostname) hn')
        rw [lookup_mapSet, if_neg hne]
        exact hfresh n' (List.mem_cons_of_mem _ hn')
      rw [ih hnd.2 _ _ hfresh', lookup_mapSet]
      have hpair : (k, v, (none : Option GoError)) =
          (txtName n hostname, (r.LookupTXT (txtName n hostname) s).1) ↔
          k = txtName n hostname ∧ v = (r.LookupTXT (txtName n hostname) s).1.1 := by
        constructor
        · intro heq
          exact ⟨congrArg Prod.fst heq, congrArg (fun p => p.2.1) heq⟩
        · rintro ⟨h1, h2⟩
          rw [h1, h2, ← herr]
      rw [hpair]
      by_cases hk : k = txtName n hostname
      · subst hk
        simp only [if_true, hn, true_and, Option.some.injEq]
        constructor
        · rintro (h | h)
          · exact Or.inr (Or.inl h.symm)
          · exact Or.inr (Or.inr h)
        · rintro (h | h | h)
          · exact absurd h (by simp)
          · exact Or.inl h.symm
          · exact Or.inr h
      · simp only [hk, if_false, false_and, false_or]

theorem txtNames_nodup (d : String) :
    (commonTXTRecords.map (fun n => txtName n d)).Nodup := by
  have hlen : ∀ a b : String, a.length ≠ b.length → a ≠ b := fun a b h e => h (e ▸ rfl)
  have e0 : txtName "" d = d := rfl
  have e1 : (txtName "_dmarc" d).length = 7 + d.length := by
    have h : txtName "_dmarc" d = "_dmarc." ++ d := by
      unfold txtName
      rw [if_pos (by decide), show "_dmarc" ++ "." = "_dmarc." from by decide]
    rw [h, String.length_append]; rfl
  have e2 : (txtName "_amazonses" d).length = 11 + d.length := by
    have h : txtName "_amazonses" d = "_amazonses." ++ d := by
      unfold txtName
      rw [if_pos (by decide), show "_amazonses" ++ "." = "_amazonses." from by decide]
    rw [h, String.length_append]; rfl
  have e3 : (txtName "google._domainkey" d).length = 18 + d.length := by
    have h : txtName "google._domainkey" d = "google._domainkey." ++ d := by
      unfold txtName
      rw [if_pos (by decide), show "google._domainkey" ++ "." = "google._domainkey." from by decide]
    rw [h, String.length_append]; rfl
  simp only [commonTXTRecords, List.map_cons, List.map_nil, List.nodup_cons, List.mem_cons,
    List.mem_singleton, List.not_mem_nil, not_false_eq_true, List.nodup_nil, and_true, not_or,
    e0]
  refine ⟨⟨?_, ?_, ?_⟩, ⟨?_, ?_⟩, ?_⟩ <;> apply hlen <;> omega

/-- C9 (counterexample): a TXT lookup that succeeds with no strings leaves a key
with an empty value. -/
theorem getCommonTXTRecords_empty_value :
    (emptyTxtResolver.LookupTXT "example.com" ()).1 = ([], none) ∧
    (getCommonTXTRecords emptyTxtResolver "example.com" ()).1.1.lookup "example.com" =
      some [] := by
  decide

/-- C9 (amended): `getCommonTXTRecords` returns no error; it asks for the four
names `d`, `_dmarc.d`, `_amazonses.d`, `google._domainkey.d` in this order; a
key is bound to a value in the returned map exactly when it is one of these
names and its lookup succeeded with that value, so a name whose lookup failed
is not a key, and a key has an empty value only when its lookup succeeded with
no strings. -/
theorem getCommonTXTRecords_keys {σ : Type} (r : Resolver σ) (d : String) (s : σ) :
    (getCommonTXTRecords r d s).1.2 = none ∧
    (txtAnswers r d commonTXTRecords s).map Prod.fst =
      [d, "_dmarc." ++ d, "_amazonses." ++ d, "google._domainkey." ++ d] ∧
    (∀ (k : String) (v : List String),
      (getCommonTXTRecords r d s).1.1.lookup k = some v ↔
        (k, (v, none)) ∈ txtAnswers r d commonTXTRecords s) ∧
    (∀ (k : String) (v : List String) (e : GoError),
      (k, (v, some e)) ∈ txtAnswers r d commonTXTRecords s →
        (getCommonTXTRecords r d s).1.1.lookup k = none) := by
  have hiff : ∀ (k : String) (v : List String),
      (getCommonTXTRecords r d s).1.1.lookup k = some v ↔
        (k, (v, none)) ∈ txtAnswers r d commonTXTRecords s := by
    intro k v
    have := getTXTLoop_lookup r d k v commonTXTRecords (txtNames_nodup d) s []
      (fun _ _ => rfl)
    simpa [getCommonTXTRecords] using this
  refine ⟨rfl, ?_, hiff, ?_⟩
  · rw [txtAnswers_names]
    rfl
  · intro k v e hmem
    cases hl : (getCommonTXTRecords r d s).1.1.lookup k with
    | none => rfl
    | some v' =>
      exfalso
      have hmem' := (hiff k v').1 hl
      have hnd : ((txtAnswers r d commonTXTRecords s).map Prod.fst).Nodup := by
        rw [txtAnswers_names]; exact txtNames_nodup d
      have := List.inj_on_of_nodup_map hnd hmem hmem' rfl
      simp at this

/-- C9 (witness): the first and the third lookup succeed. -/
theorem getCommonTXTRecords_keys_witness :
    txtAnswers countingTxtResolver "example.com" commonTXTRecords 0 =
      [("example.com", (["txt for example.com"], none)),
       ("_dmarc.example.com", ([], some noSuchHost)),
       ("_amazonses.example.com", (["txt for _amazonses.example.com"], none)),
       ("google._domainkey.example.com", ([], some noSuchHost))] ∧
    (getCommonTXTRecords countingTxtResolver "example.com" 0).1.1.lookup
      "_amazonses.example.com" = some ["txt for _amazonses.example.com"] ∧
    (getCommonTXTRecords countingTxtResolver "example.com" 0).1.1.lookup
      "_dmarc.example.com" = none :=
  ⟨by decide,
    ((getCommonTXTRecords_keys countingTxtResolver "example.com" 0).2.2.1 _ _).2 (by decide),
    (getCommonTXTRecords_keys countingTxtResolver "example.com" 0).2.2.2
      "_dmarc.example.com" [] noSuchHost (by decide)⟩

/-! ## Stored names -/

theorem getIPs_ptrs {σ : Type} (r : Resolver σ) (addrs : List String) :
    ∀ s : σ, ptrsTrimmed r (getIPs r addrs s).1 := by
  induction addrs with
  | nil => intro s ip hip; simp [getIPs, getIPsLoop] at hip
  | cons addr rest ih =>
    intro s ip hip p hp
    rw [getIPs_cons] at hip
    rcases List.mem_cons.1 hip with rfl | hip
    · cases herr : (r.LookupAddr addr s).1.2 with
      | some e => simp [ipOfAnswer, herr] at hp
      | none =>
        simp only [ipOfAnswer, herr, List.mem_map] at hp
        obtain ⟨h, hh, rfl⟩ := hp
        exact ⟨h, ⟨addr, s, herr, hh⟩, rfl⟩
    · exact ih _ ip hip p hp

theorem getARecord_ptrs {σ : Type} (r : Resolver σ) (hostname : String) (s : σ) :
    ptrsTrimmed r (getARecord r hostname s).1.1 := by
  cases herr : (r.LookupHost hostname s).1.2 with
  | some e =>
    intro ip hip
    simp [getARecord, herr] at hip
  | none =>
    rw [getARecord_of_ok r hostname s herr]
    exact getIPs_ptrs r _ _

theorem getMXLoop_stored {σ : Type} (r : Resolver σ) (Q : String → Prop) (entries : List NetMX)
    (hQ : ∀ e ∈ entries, Q e.Host) :
    ∀ (s : σ) (mx : List MXRecord),
      (∀ m ∈ mx, TrimOf Q m.Host.Name ∧ ptrsTrimmed r m.Host.IPs) →
      ∀ m ∈ (getMXLoop r entries s mx).1.1, TrimOf Q m.Host.Name ∧ ptrsTrimmed r m.Host.IPs := by
  induction entries with
  | nil => intro s mx hmx m hm; exact hmx m hm
  | cons e rest ih =>
    intro s mx hmx m hm
    simp only [getMXLoop] at hm
    cases herr : (getARecord r e.Host s).1.2 with
    | some err =>
      simp only [herr] at hm
      exact hmx m hm
    | none =>
      simp only [herr] at hm
      refine ih (fun e' he' => hQ e' (List.mem_cons_of_mem _ he')) _ _ ?_ m hm
      intro m' hm'
      rcases List.mem_append.1 hm' with h1 | h1
      · exact hmx m' h1
      · rw [List.mem_singleton] at h1
        subst h1
        exact ⟨⟨e.Host, hQ e (List.mem_cons_self _ _), rfl⟩, getARecord_ptrs r e.Host s⟩

theorem getNSLoop_stored {σ : Type} (r : Resolver σ) (Q : String → Prop) (entries : List NetNS)
    (hQ : ∀ e ∈ entries, Q e.Host) :
    ∀ (s : σ) (ns : List Host),
      (∀ n ∈ ns, TrimOf Q n.Name ∧ ptrsTrimmed r n.IPs) →
      ∀ n ∈ (getNSLoop r entries s ns).1.1, TrimOf Q n.Name ∧ ptrsTrimmed r n.IPs := by
  induction entries with
  | nil => intro s ns hns n hn; exact hns n hn
  | cons e rest ih =>
    intro s ns hns n hn
    simp only [getNSLoop] at hn
    cases herr : (getARecord r e.Host s).1.2 with
    | some err =>
      simp only [herr] at hn
      exact hns n hn
    | none =>
      simp only [herr] at hn
      refine ih (fun e' he' => hQ e' (List.mem_cons_of_mem _ he')) _ _ ?_ n hn
      intro n' hn'
      rcases List.mem_append.1 hn' with h1 | h1
      · exact hns n' h1
      · rw [List.mem_singleton] at h1
        subst h1
        exact ⟨⟨e.Host, hQ e (List.mem_cons_self _ _), rfl⟩, getARecord_ptrs r e.Host s⟩

theorem getMXRecords_stored {σ : Type} (r : Resolver σ) (S : SortSlice) (hS : S.Correct)
    (domain : String) (s : σ) :
    ∀ m ∈ (getMXRecords r S domain s).1.1,
      TrimOf (mxReturned r domain) m.Host.Name ∧ ptrsTrimmed r m.Host.IPs := by
  intro m hm
  cases hl : (r.LookupMX domain s).1.2 with
  | some err =>
    by_cases hf : isFatalDNS err = true
    · simp [getMXRecords, hl, hf] at hm
    · simp [getMXRecords, hl, hf] at hm
  | none =>
    have hloop := getMXLoop_stored r (mxReturned r domain) (r.LookupMX domain s).1.1
      (fun e he => ⟨s, hl, e, he, rfl⟩) (r.LookupMX domain s).2 []
      (fun _ h => absurd h (List.not_mem_nil _))
    cases hle : (getMXLoop r (r.LookupMX domain s).1.1 (r.LookupMX domain s).2 []).1.2 with
    | some err =>
      simp only [getMXRecords, hl, hle] at hm
      exact hloop m hm
    | none =>
      simp only [getMXRecords, hl, hle] at hm
      exact hloop m (((hS mxLess _ mxLess_irrefl mxLess_trans mxLess_negtrans).1.mem_iff).1 hm)

theorem getNSRecords_stored {σ : Type} (r : Resolver σ) (S : SortSlice) (hS : S.Correct)
    (domain : String) (s : σ) :
    ∀ n ∈ (getNSRecords r S domain s).1.1,
      TrimOf (nsReturned r domain) n.Name ∧ ptrsTrimmed r n.IPs := by
  intro n hn
  cases hl : (r.LookupNS domain s).1.2 with
  | some err =>
    by_cases hf : isFatalDNS err = true
    · simp [getNSRecords, hl, hf] at hn
    · simp [getNSRecords, hl, hf] at hn
  | none =>
    have hloop := getNSLoop_stored r (nsReturned r domain) (r.LookupNS domain s).1.1
      (fun e he => ⟨s, hl, e, he, rfl⟩) (r.LookupNS domain s).2 []
      (fun _ h => absurd h (List.not_mem_nil _))
    cases hle : (getNSLoop r (r.LookupNS domain s).1.1 (r.LookupNS domain s).2 []).1.2 with
    | some err =>
      simp only [getNSRecords, hl, hle] at hn
      exact hloop n hn
    | none =>
      simp only [getNSRecords, hl, hle] at hn
      exact hloop n (((hS nsLess _ (fun a => strLess_irrefl _) (fun a b c => strLess_trans _ _ _)
        (fun a b c => strLess_negtrans _ _ _)).1.mem_iff).1 hn)

theorem mem_mapSet {β : Type} (m : List (String × β)) (k : String) (v : β) (kv : String × β)
    (h : kv ∈ mapSet m k v) : kv = (k, v) ∨ kv ∈ m := by
  unfold mapSet at h
  rcases List.mem_cons.1 h with h1 | h1
  · exact Or.inl h1
  · exact Or.inr (List.mem_filter.1 h1).1

theorem getCNAMELoop_stored {σ : Type} (r : Resolver σ) (domain : String)
    (P : String × String → Prop) (cands : List String)
    (hP : ∀ n ∈ cands, ∀ s : σ, (r.LookupCNAME (n ++ "." ++ domain) s).1.2 = none →
      P (n, trimHostname (r.LookupCNAME (n ++ "." ++ domain) s).1.1)) :
    ∀ (s : σ) (cname : List (String × String)),
      (∀ kv ∈ cname, P kv) →
      ∀ kv ∈ (getCNAMELoop r domain cands s cname).1.1, P kv := by
  induction cands with
  | nil => intro s cname hc kv hkv; exact hc kv hkv
  | cons n rest ih =>
    intro s cname hc kv hkv
    have ih' := ih (fun n' hn' => hP n' (List.mem_cons_of_mem _ hn'))
    simp only [getCNAMELoop] at hkv
    cases herr : (r.LookupCNAME (n ++ "." ++ domain) s).1.2 with
    | some err =>
      simp only [herr] at hkv
      by_cases hf : isFatalDNS err = true
      · simp only [hf, if_true] at hkv
        exact hc kv hkv
      · simp only [hf] at hkv
        exact ih' _ _ hc kv hkv
    | none =>
      simp only [herr] at hkv
      refine ih' _ _ ?_ kv hkv
      intro kv' hkv'
      rcases mem_mapSet _ _ _ _ hkv' with h1 | h1
      · rw [h1]; exact hP n (List.mem_cons_self _ _) s herr
      · exact hc kv' h1

theorem getCNAMERecords_stored {σ : Type} (r : Resolver σ) (domain : String) (s : σ) :
    ∀ kv ∈ (getCNAMERecords r domain s).1.1,
      kv.1 ∈ commonCNAMERecords ∧ TrimOf (cnameReturned r domain kv.1) kv.2 := by
  refine getCNAMELoop_stored r domain
    (fun kv => kv.1 ∈ commonCNAMERecords ∧ TrimOf (cnameReturned r domain kv.1) kv.2)
    commonCNAMERecords ?_ s [] (fun _ h => absurd h (List.not_mem_nil _))
  intro n hn s' hok
  exact ⟨hn, _, ⟨s', hok, rfl⟩, rfl⟩

theorem Query_fields {σ : Type} (r : Resolver σ) (S : SortSlice) (domain : String) (s : σ) :
    (Query r S domain s).1.1.A = (getARecord r domain s).1.1 ∧
    ((Query r S domain s).1.1.MX = [] ∨
      (Query r S domain s).1.1.MX = (getMXRecords r S domain (afterA r domain s)).1.1) ∧
    ((Query r S domain s).1.1.NS = [] ∨
      (Query r S domain s).1.1.NS = (getNSRecords r S domain (afterMX r S domain s)).1.1) ∧
    ((Query r S domain s).1.1.CNAME = [] ∨
      (Query r S domain s).1.1.CNAME =
        (getCNAMERecords r domain (afterTXT r S domain s)).1.1) := by
  simp only [Query, afterA, afterMX, afterNS, afterTXT]
  repeat' split
  all_goals simp

/-- C3 (amended): `trimHostname` removes exactly one trailing dot (a name ending
with a dot is the result followed by one dot, any other name is returned
unchanged), so its result ends with a dot exactly when the name ends with two
dots.  Every name stored in the zone `Query` returns is such a result: each
reverse name of each address record (of the domain, of a mail exchanger, of a
name server) is the trimmed form of a name a reverse lookup returned, each
`Host.Name` the trimmed form of a target the MX or NS lookup of the domain
returned, and each CNAME value the trimmed form of the canonical name the
lookup of its label returned.  Hence a stored name ends with a dot only if
the resolver returned it with two trailing dots. -/
theorem Query_names_trimmed {σ : Type} (r : Resolver σ) (S : SortSlice) (hS : S.Correct)
    (domain : String) (s : σ) :
    (∀ h : String,
      (hasSuffix h "." = true → (trimHostname h).data ++ ['.'] = h.data) ∧
      (hasSuffix h "." = false → trimHostname h = h) ∧
      (hasSuffix (trimHostname h) "." = true ↔ hasSuffix h ".." = true)) ∧
    ptrsTrimmed r (Query r S domain s).1.1.A ∧
    (∀ m ∈ (Query r S domain s).1.1.MX,
      TrimOf (mxReturned r domain) m.Host.Name ∧ ptrsTrimmed r m.Host.IPs) ∧
    (∀ n ∈ (Query r S domain s).1.1.NS,
      TrimOf (nsReturned r domain) n.Name ∧ ptrsTrimmed r n.IPs) ∧
    (∀ kv ∈ (Query r S domain s).1.1.CNAME,
      kv.1 ∈ commonCNAMERecords ∧ TrimOf (cnameReturned r domain kv.1) kv.2) := by
  obtain ⟨hA, hM, hN, hC⟩ := Query_fields r S domain s
  refine ⟨fun h => ⟨trimHostname_of_dot h, trimHostname_of_no_dot h, trimHostname_dot_iff h⟩,
    ?_, ?_, ?_, ?_⟩
  · rw [hA]; exact getARecord_ptrs r domain s
  · intro m hm
    rcases hM with h0 | h1
    · rw [h0] at hm; exact absurd hm (List.not_mem_nil _)
    · rw [h1] at hm; exact getMXRecords_stored r S hS domain _ m hm
  · intro n hn
    rcases hN with h0 | h1
    · rw [h0] at hn; exact absurd hn (List.not_mem_nil _)
    · rw [h1] at hn; exact getNSRecords_stored r S hS domain _ n hn
  · intro kv hkv
    rcases hC with h0 | h1
    · rw [h0] at hkv; exact absurd hkv (List.not_mem_nil _)
    · rw [h1] at hkv; exact getCNAMERecords_stored r domain _ kv hkv

/-- C3 (witness): every name of the zone arrives with one trailing dot and is
stored without it. -/
theorem Query_names_trimmed_witness :
    insertionSortSlice.Correct ∧
    (Query dottedResolver insertionSortSlice "example.com" ()).1.1.A =
      [{ Addr := "34.194.118.33", Ptrs := ["ec2-34-194-118-33.compute-1.amazonaws.com"],
         Owner := "Amazon.com, Inc." }] ∧
    (Query dottedResolver insertionSortSlice "example.com" ()).1.1.MX.map mxKey =
      [(0, "aspmx.l.google.com")] ∧
    (Query dottedResolver insertionSortSlice "example.com" ()).1.1.NS.map Host.Name =
      ["ns11.domaincontrol.com"] ∧
    (Query dottedResolver insertionSortSlice "example.com" ()).1.1.CNAME.lookup "www" =
      some "example.com" ∧
    TrimOf (cnameReturned dottedResolver "example.com" "www") "example.com" :=
  ⟨insertionSortSlice_correct, by decide, by decide, by decide, by decide,
    ((Query_names_trimmed dottedResolver insertionSortSlice insertionSortSlice_correct
      "example.com" ()).2.2.2.2 ("www", "example.com") (by decide)).2⟩

end DnsDigger
